import Mathlib

/-!
Verification development for the pages-index repository.

The repository has two halves in `scripts/generate-projects.js`:
a Node generator that assembles `projects.json` from the GitHub REST API,
and a browser renderer that filters, sorts and displays the records.

Modelling conventions:
* JavaScript strings are lists of characters (`Str`); `toLowerCase` is a
  characterwise `Char.toLower`, `trim` drops whitespace from both ends,
  `includes` is a contiguous-subsequence test.
* `new Date(s)` is an abstract parse function `Str → Option Int`
  (`none` models an invalid date, i.e. a `NaN` time value); the
  `YYYY-MM-DD` component formatting of `formatDate` is likewise an
  abstract `Int → Str`, since both are behaviour of the host Date object.
* `Array.prototype.sort(cmp)` is a stable insertion sort in which element
  `x` may stay before `y` exactly when `cmp x y ≤ 0`; per the SortCompare
  algorithm a `NaN` comparator result counts as `+0`, i.e. a tie.
* The GitHub API is a record of responses (`Api`); a failed request is
  `Fetch.err status message`, with `status = some 404` for a not-found
  response, matching the `err.status === 404` test in the script.
-/

namespace PagesIndex

/-- A JavaScript string, modelled as a list of characters. -/
abbrev Str := List Char

/-- `String.prototype.toLowerCase`, modelled characterwise. -/
def lowerS (s : Str) : Str := s.map Char.toLower

/-- The whitespace class stripped by `String.prototype.trim`. -/
def isWS (c : Char) : Bool := c.isWhitespace

/-- `String.prototype.trim`: drop whitespace from both ends. -/
def trimS (s : Str) : Str :=
  ((s.dropWhile isWS).reverse.dropWhile isWS).reverse

/-- Does `hay` start with `needle`? (`String.prototype.startsWith`). -/
def startsWithS : Str → Str → Bool
  | _, [] => true
  | [], _ :: _ => false
  | c :: s, d :: t => c == d && startsWithS s t

/-- `hay.includes(needle)` for JavaScript strings. -/
def jsIncludes : Str → Str → Bool
  | [], needle => startsWithS [] needle
  | c :: t, needle => startsWithS (c :: t) needle || jsIncludes t needle

/-- `needle` occurs contiguously inside `hay` (the specification's notion
of substring, stated independently of the code's `includes`). -/
def IsSubstr (needle hay : Str) : Prop := ∃ l r, hay = l ++ needle ++ r

/-- One Project Record of the manifest, exactly the object literal pushed
by the generator (all fields are strings except `topics`). -/
structure Project where
  name : Str
  repo : Str
  url : Str
  description : Str
  topics : List Str
  date : Str
  screenshot : Str
deriving DecidableEq

/-- The fields of a repository object returned by `repos.listForUser`
that the generator reads. `description` may be `null` (`none`). -/
structure RepoInfo where
  name : Str
  fork : Bool
  archived : Bool
  description : Option Str
  updated_at : Str
deriving DecidableEq

/-- The field of the Pages configuration response that the generator
reads. -/
structure PagesConfig where
  html_url : Str
deriving DecidableEq

/-- Outcome of one API request: success with data, or a thrown error
carrying an optional HTTP status and a message. -/
inductive Fetch (α : Type) where
  | ok (data : α)
  | err (status : Option Nat) (message : Str)
deriving DecidableEq

/-- The external GitHub API, as the generator observes it in one run:
the repository listing, and the per-repository responses of the Pages
endpoint and the topics endpoint. -/
structure Api where
  listRepos : List RepoInfo
  pages : Str → Fetch PagesConfig
  topics : Str → Fetch (List Str)

/-- The template of the warning logged when the Pages lookup fails with
a status other than 404. -/
def pagesWarnMsg (repoName msg : Str) : Str :=
  "获取仓库 ".toList ++ repoName ++ " pages 配置失败: ".toList ++ msg

/-- The template of the warning logged when the topics lookup fails. -/
def topicsWarnMsg (repoName msg : Str) : Str :=
  "获取仓库 ".toList ++ repoName ++ " topics 失败: ".toList ++ msg

/-- One iteration of the generator's `for` loop: the record it pushes to
`projects` (if any) and the warnings it logs. -/
def processRepo (api : Api) (repo : RepoInfo) : Option Project × List Str :=
  if repo.fork || repo.archived then (none, [])
  else
    match api.pages repo.name with
    | Fetch.err status msg =>
      if status = some 404 then (none, [])
      else (none, [pagesWarnMsg repo.name msg])
    | Fetch.ok cfg =>
      match api.topics repo.name with
      | Fetch.ok names =>
        (some { name := repo.name, repo := repo.name, url := cfg.html_url,
                description := repo.description.getD [], topics := names,
                date := repo.updated_at, screenshot := [] }, [])
      | Fetch.err _ msg =>
        (some { name := repo.name, repo := repo.name, url := cfg.html_url,
                description := repo.description.getD [], topics := [],
                date := repo.updated_at, screenshot := [] },
         [topicsWarnMsg repo.name msg])

/-- The whole `for` loop of the generator: the records pushed to
`projects`, in order, and the warnings logged, in order. -/
def generateLoop (api : Api) : List RepoInfo → List Project × List Str
  | [] => ([], [])
  | r :: rest =>
    ((processRepo api r).1.toList ++ (generateLoop api rest).1,
     (processRepo api r).2 ++ (generateLoop api rest).2)

/-- Numeric difference of two Date time values as used by the sort
comparators; any operand that is an invalid date (`NaN`) makes the
subtraction `NaN`, which the SortCompare algorithm converts to `+0`. -/
def cmpNum : Option Int → Option Int → Int
  | some a, some b => a - b
  | _, _ => 0

/-- The generator's comparator `(a, b) => new Date(b.date) - new Date(a.date)`,
as the relation "`a` may stay before `b`" (comparator result `≤ 0`). -/
def genLe (parse : Str → Option Int) (a b : Project) : Bool :=
  decide (cmpNum (parse b.date) (parse a.date) ≤ 0)

/-- Stable insertion of `x` in front of the first element `y` it may
precede (`R x y`), used to model `Array.prototype.sort`. -/
def ordInsert {α : Type} (R : α → α → Bool) (x : α) : List α → List α
  | [] => [x]
  | y :: l => if R x y then x :: y :: l else y :: ordInsert R x l

/-- Stable sort modelling `Array.prototype.sort(cmp)`, where
`R x y = (cmp x y ≤ 0)` means `x` may stay before `y`. -/
def insSort {α : Type} (R : α → α → Bool) : List α → List α
  | [] => []
  | x :: l => ordInsert R x (insSort R l)

/-- The array the generator writes to `projects.json`: the loop's records
sorted by the descending-date comparator. -/
def generatorOutput (parse : Str → Option Int) (api : Api) : List Project :=
  insSort (genLe parse) (generateLoop api api.listRepos).1

/-- Error message printed when `GITHUB_USER` is unset. -/
def userMissingMsg : Str := "环境变量 GITHUB_USER 未设置".toList

/-- Error message printed when `GITHUB_TOKEN` is unset. -/
def tokenMissingMsg : Str := "环境变量 GITHUB_TOKEN 未设置".toList

/-- Observable outcome of running `main`: an early `process.exit` with a
code and the error message printed, or normal completion with the array
written to disk. -/
inductive MainOutcome where
  | exit (code : Nat) (message : Str)
  | done (projects : List Project)
deriving DecidableEq

/-- JavaScript falsiness of an environment variable: unset, or the empty
string (`if (!owner)` / `if (!token)`). -/
def strFalsy : Option Str → Bool
  | none => true
  | some s => s.isEmpty

/-- The `main` function of the generator: credential checks, then the
repository loop and the descending sort of the output array. -/
def mainRun (parse : Str → Option Int) (githubUser githubToken : Option Str)
    (api : Api) : MainOutcome :=
  if strFalsy githubUser then MainOutcome.exit 1 userMissingMsg
  else if strFalsy githubToken then MainOutcome.exit 1 tokenMissingMsg
  else MainOutcome.done (generatorOutput parse api)

/-- The renderer's comparator, chosen by the sort-order control:
`aDate - bDate` when the control value is `asc`, else `bDate - aDate`;
again as the relation "`a` may stay before `b`". -/
def rndLe (parse : Str → Option Int) (sortVal : Str) (a b : Project) : Bool :=
  if sortVal = "asc".toList then decide (cmpNum (parse a.date) (parse b.date) ≤ 0)
  else decide (cmpNum (parse b.date) (parse a.date) ≤ 0)

/-- The renderer's filter predicate (the body of `projects.filter`),
taking the already trimmed and lowercased query. `p.name && …` and
`p.description && …` are JavaScript truthiness tests (empty string is
falsy); `Array.isArray(p.topics)` is always true here since `topics` is
a list by construction. -/
def matchesFilter (query tag : Str) (p : Project) : Bool :=
  let inName := !p.name.isEmpty && jsIncludes (lowerS p.name) query
  let inDesc := !p.description.isEmpty && jsIncludes (lowerS p.description) query
  let matchesSearch := query.isEmpty || inName || inDesc
  let matchesTag := tag.isEmpty || decide (tag ∈ p.topics)
  matchesSearch && matchesTag

/-- `searchInput.value.trim().toLowerCase()`. -/
def renderQuery (searchText : Str) : Str := lowerS (trimS searchText)

/-- The list of records the renderer displays, in display order, for the
given control state: filter by the trimmed lowercased query and selected
tag (empty value = the "all" choice), then sort by the chosen
comparator. -/
def visibleList (parse : Str → Option Int) (projects : List Project)
    (searchText tag sortVal : Str) : List Project :=
  insSort (rndLe parse sortVal)
    (projects.filter (matchesFilter (renderQuery searchText) tag))

/-- `formatDate`: the empty string when `new Date(isoString)` is invalid,
otherwise the `YYYY-MM-DD` rendering of the time value (abstracted as
`fmtYMD`, behaviour of the host Date object). -/
def formatDate (parse : Str → Option Int) (fmtYMD : Int → Str) (s : Str) : Str :=
  match parse s with
  | none => []
  | some t => fmtYMD t

/-- The text assigned to a card's `.update-date` element:
`p.date ? `更新于 ${formatDate(p.date)}` : ''`. -/
def dateLabel (parse : Str → Option Int) (fmtYMD : Int → Str) (p : Project) : Str :=
  if p.date.isEmpty then []
  else "更新于 ".toList ++ formatDate parse fmtYMD p.date

/-- The render predicate exactly as the specification words it: the
search text is empty, or a case-insensitive substring of the name or of
the description; and the tag is the "all" choice (empty value) or occurs
in the record's topic list. -/
def specShown (searchText tag : Str) (p : Project) : Prop :=
  (searchText = [] ∨ IsSubstr (lowerS searchText) (lowerS p.name) ∨
    IsSubstr (lowerS searchText) (lowerS p.description)) ∧
  (tag = [] ∨ tag ∈ p.topics)

/-- "Adjacent records are in descending date order" read on timestamps:
whenever both dates parse, the later one is first. -/
def dateGe (parse : Str → Option Int) (a b : Project) : Prop :=
  ∀ ta tb, parse a.date = some ta → parse b.date = some tb → tb ≤ ta

/-- A concrete date parser for witnesses: recognises two ISO strings,
everything else is an invalid date. -/
def parseW : Str → Option Int := fun s =>
  if s = "2024-01-02T00:00:00Z".toList then some 20
  else if s = "2023-01-02T00:00:00Z".toList then some 10
  else none

/-- A concrete `YYYY-MM-DD` formatter for witnesses. -/
def fmtW : Int → Str := fun _ => "1970-01-01".toList

/-- A concrete Pages configuration for witnesses. -/
def cfgW : PagesConfig := { html_url := "https://example.test/site/".toList }

/-- A repository with an unparseable update date. -/
def repoBad : RepoInfo :=
  { name := "bad".toList, fork := false, archived := false,
    description := none, updated_at := "not-a-date".toList }

/-- A repository with a parseable update date. -/
def repoGood : RepoInfo :=
  { name := "good".toList, fork := false, archived := false,
    description := none, updated_at := "2023-01-02T00:00:00Z".toList }

/-- A forked repository. -/
def repoFork : RepoInfo :=
  { name := "forked".toList, fork := true, archived := false,
    description := none, updated_at := "2023-01-02T00:00:00Z".toList }

/-- An API where every Pages lookup succeeds and every topics lookup
returns no topics. -/
def apiOk : Api :=
  { listRepos := [repoBad, repoGood],
    pages := fun _ => Fetch.ok cfgW,
    topics := fun _ => Fetch.ok [] }

/-- An API where every Pages lookup fails with a 404. -/
def apiErr404 : Api :=
  { listRepos := [repoGood],
    pages := fun _ => Fetch.err (some 404) [],
    topics := fun _ => Fetch.ok [] }

/-- An API where Pages lookups succeed but every topics lookup throws. -/
def apiTopicsErr : Api :=
  { listRepos := [repoGood],
    pages := fun _ => Fetch.ok cfgW,
    topics := fun _ => Fetch.err none ("boom".toList) }

/-- The record the generator builds from `repoBad` under `apiOk`. -/
def projBadG : Project :=
  { name := "bad".toList, repo := "bad".toList, url := cfgW.html_url,
    description := [], topics := [], date := "not-a-date".toList,
    screenshot := [] }

/-- The record the generator builds from `repoGood` under `apiOk`. -/
def projGoodG : Project :=
  { name := "good".toList, repo := "good".toList, url := cfgW.html_url,
    description := [], topics := [], date := "2023-01-02T00:00:00Z".toList,
    screenshot := [] }

/-- A minimal record whose name is the single character `x`. -/
def projX : Project :=
  { name := ['x'], repo := ['x'], url := [], description := [], topics := [],
    date := [], screenshot := [] }

theorem mem_ordInsert {α : Type} (R : α → α → Bool) (x p : α) :
    ∀ l : List α, p ∈ ordInsert R x l ↔ p = x ∨ p ∈ l
  | [] => by simp [ordInsert]
  | y :: l => by
    by_cases h : R x y
    · simp [ordInsert, h]
    · simp only [ordInsert, if_neg h, List.mem_cons, mem_ordInsert R x p l]
      tauto

theorem mem_insSort {α : Type} (R : α → α → Bool) (p : α) :
    ∀ l : List α, p ∈ insSort R l ↔ p ∈ l
  | [] => by simp [insSort]
  | x :: l => by
    simp only [insSort, mem_ordInsert, mem_insSort R p l, List.mem_cons]

theorem startsWithS_iff : ∀ (hay needle : Str),
    startsWithS hay needle = true ↔ ∃ r, hay = needle ++ r
  | hay, [] => by
    simp only [startsWithS, List.nil_append, true_iff]
    exact ⟨hay, rfl⟩
  | [], d :: t => by simp [startsWithS]
  | c :: s, d :: t => by
    simp only [startsWithS, Bool.and_eq_true, beq_iff_eq, startsWithS_iff s t,
      List.cons_append]
    constructor
    · rintro ⟨rfl, r, rfl⟩
      exact ⟨r, rfl⟩
    · rintro ⟨r, hr⟩
      injection hr with h1 h2
      exact ⟨h1, r, h2⟩

theorem jsIncludes_iff : ∀ (hay needle : Str),
    jsIncludes hay needle = true ↔ IsSubstr needle hay
  | [], needle => by
    rw [jsIncludes, startsWithS_iff]
    constructor
    · rintro ⟨r, hr⟩
      exact ⟨[], r, hr⟩
    · rintro ⟨l, r, hr⟩
      rcases List.append_eq_nil.mp (List.append_eq_nil.mp hr.symm).1 with ⟨hl, hn⟩
      exact ⟨r, by rw [hn]; simpa [hn, hl] using hr⟩
  | c :: t, needle => by
    rw [jsIncludes]
    simp only [Bool.or_eq_true, startsWithS_iff, jsIncludes_iff t needle]
    constructor
    · rintro (⟨r, hr⟩ | ⟨l, r, hr⟩)
      · exact ⟨[], r, by simpa using hr⟩
      · exact ⟨c :: l, r, by simp [hr]⟩
    · rintro ⟨l, r, hr⟩
      cases l with
      | nil => exact Or.inl ⟨r, by simpa using hr⟩
      | cons d l' =>
        right
        injection hr with h1 h2
        exact ⟨l', r, h2⟩

theorem lowerS_eq_nil {s : Str} : lowerS s = [] ↔ s = [] := by
  simp [lowerS]

theorem jsIncludes_nil {needle : Str} (h : needle ≠ []) :
    jsIncludes [] needle = false := by
  cases needle with
  | nil => exact absurd rfl h
  | cons d t => simp [jsIncludes, startsWithS]

theorem dropWhile_append_all {α : Type} {p : α → Bool} :
    ∀ (w : List α), (∀ c ∈ w, p c = true) →
      ∀ l : List α, (w ++ l).dropWhile p = l.dropWhile p
  | [], _, l => rfl
  | c :: w, h, l => by
    simp only [List.cons_append, List.dropWhile_cons,
      h c (List.mem_cons_self c w), if_true]
    exact dropWhile_append_all w (fun x hx => h x (List.mem_cons_of_mem c hx)) l

theorem dropWhile_append_of_ne {α : Type} {p : α → Bool} :
    ∀ (s l : List α), s.dropWhile p ≠ [] →
      (s ++ l).dropWhile p = s.dropWhile p ++ l
  | [], _, h => absurd rfl h
  | b :: s, l, h => by
    by_cases hb : p b
    · rw [List.dropWhile_cons, if_pos hb] at h
      simp only [List.cons_append, List.dropWhile_cons, if_pos hb]
      exact dropWhile_append_of_ne s l h
    · simp [List.dropWhile_cons, hb]

theorem trimS_pad (w s w' : Str) (hw : ∀ c ∈ w, isWS c = true)
    (hw' : ∀ c ∈ w', isWS c = true) :
    trimS (w ++ s ++ w') = trimS s := by
  unfold trimS
  rw [List.append_assoc, dropWhile_append_all w hw]
  by_cases hnil : s.dropWhile isWS = []
  · rw [dropWhile_append_all s (List.dropWhile_eq_nil_iff.mp hnil) w',
      List.dropWhile_eq_nil_iff.mpr hw', hnil]
  · rw [dropWhile_append_of_ne s w' hnil, List.reverse_append,
      dropWhile_append_all w'.reverse (fun x hx => hw' x (List.mem_reverse.mp hx))]

theorem matchesFilter_iff_specShown (q tag : Str) (p : Project) :
    matchesFilter (lowerS q) tag p = true ↔ specShown q tag p := by
  unfold matchesFilter specShown
  by_cases hq : q = []
  · subst hq
    simp [lowerS]
  · have hlq : lowerS q ≠ [] := fun hh => hq (lowerS_eq_nil.mp hh)
    have hne : (lowerS q).isEmpty = false := by
      cases hc : lowerS q with
      | nil => exact absurd hc hlq
      | cons a b => rfl
    have hand : ∀ s : Str,
        (!s.isEmpty && jsIncludes (lowerS s) (lowerS q)) =
          jsIncludes (lowerS s) (lowerS q) := by
      intro s
      cases s with
      | nil =>
        have hmap : q.map Char.toLower ≠ [] := by simpa [lowerS] using hlq
        simp [lowerS, jsIncludes_nil hmap]
      | cons a b => simp [List.isEmpty]
    simp only [hne, Bool.false_or, hand, Bool.and_eq_true, Bool.or_eq_true,
      jsIncludes_iff, decide_eq_true_eq, List.isEmpty_iff, hq, false_or]

theorem chain_ordInsert {α : Type} {R : α → α → Bool} {Q : α → α → Prop} {x : α}
    (h1 : ∀ y, R x y = true → Q x y) (h2 : ∀ y, R x y = false → Q y x) :
    ∀ l, List.Chain' Q l → List.Chain' Q (ordInsert R x l)
  | [], _ => by simp [ordInsert]
  | b :: l, hc => by
    rw [List.chain'_cons'] at hc
    by_cases h : R x b
    · simp only [ordInsert, if_pos h]
      rw [List.chain'_cons']
      refine ⟨?_, List.chain'_cons'.mpr hc⟩
      intro y hy
      simp only [List.head?_cons, Option.mem_def, Option.some.injEq] at hy
      subst hy
      exact h1 b h
    · simp only [ordInsert, if_neg h]
      rw [List.chain'_cons']
      refine ⟨?_, chain_ordInsert h1 h2 l hc.2⟩
      intro y hy
      have hxb : R x b = false := Bool.eq_false_iff.mpr h
      cases l with
      | nil =>
        simp only [ordInsert, List.head?_cons, Option.mem_def,
          Option.some.injEq] at hy
        subst hy
        exact h2 b hxb
      | cons c l' =>
        by_cases h' : R x c
        · simp only [ordInsert, if_pos h', List.head?_cons, Option.mem_def,
            Option.some.injEq] at hy
          subst hy
          exact h2 b hxb
        · simp only [ordInsert, if_neg h', List.head?_cons, Option.mem_def,
            Option.some.injEq] at hy
          subst hy
          exact hc.1 c rfl

theorem chain_insSort {α : Type} {R : α → α → Bool} {Q : α → α → Prop}
    (h1 : ∀ x y, R x y = true → Q x y) (h2 : ∀ x y, R x y = false → Q y x) :
    ∀ l, List.Chain' Q (insSort R l)
  | [] => by simp [insSort]
  | x :: l => by
    simp only [insSort]
    exact chain_ordInsert (h1 x) (h2 x) _ (chain_insSort h1 h2 l)

theorem processRepo_record_fields (api : Api) (r : RepoInfo) (p : Project)
    (h : (processRepo api r).1 = some p) :
    p.name = p.repo ∧ p.screenshot = [] := by
  unfold processRepo at h
  by_cases hor : (r.fork || r.archived) = true
  · rw [if_pos hor] at h
    simp at h
  · rw [if_neg hor] at h
    cases hp : api.pages r.name with
    | err st msg =>
      rw [hp] at h
      by_cases h4 : st = some 404
      · simp [h4] at h
      · simp [h4] at h
    | ok cfg =>
      rw [hp] at h
      cases ht : api.topics r.name with
      | ok names =>
        rw [ht] at h
        simp only [Option.some.injEq] at h
        subst h
        exact ⟨rfl, rfl⟩
      | err st msg =>
        rw [ht] at h
        simp only [Option.some.injEq] at h
        subst h
        exact ⟨rfl, rfl⟩

theorem generateLoop_record_fields (api : Api) :
    ∀ (repos : List RepoInfo) (p : Project), p ∈ (generateLoop api repos).1 →
      p.name = p.repo ∧ p.screenshot = []
  | [], p, h => by simp [generateLoop] at h
  | r :: rest, p, h => by
    simp only [generateLoop] at h
    rcases List.mem_append.mp h with h | h
    · have hs : (processRepo api r).1 = some p := by
        cases ho : (processRepo api r).1 with
        | none => rw [ho] at h; simp at h
        | some q =>
          rw [ho] at h
          simp only [Option.toList_some, List.mem_singleton] at h
          subst h
          rfl
      exact processRepo_record_fields api r p hs
    · exact generateLoop_record_fields api rest p h

/-- Claim C1 fails as stated: with the raw search text `" x"` (one space
then `x`) and the "all" tag choice, the renderer shows the record named
`x`, although the search text is neither empty nor a case-insensitive
substring of the name `x` or of the empty description. -/
theorem c1_counterexample :
    projX ∈ visibleList parseW [projX] [' ', 'x'] [] ("desc".toList) ∧
    ¬ specShown [' ', 'x'] [] projX := by
  constructor
  · decide
  · simp only [specShown, ← jsIncludes_iff]
    decide

/-- Claim C1 (amended: the search-text conditions are read on the
trimmed search text): for every record list, every state of the three
controls and every record, the renderer shows the record iff (the
trimmed search text is empty, or a case-insensitive substring of the
record's name or of its description) and (the selected tag is the "all"
choice, i.e. the empty value, or the record's topics contain the
selected tag exactly). -/
theorem c1_amended_render_predicate (parse : Str → Option Int)
    (projects : List Project) (searchText tag sortVal : Str) (p : Project) :
    p ∈ visibleList parse projects searchText tag sortVal ↔
      p ∈ projects ∧ specShown (trimS searchText) tag p := by
  rw [visibleList, mem_insSort, List.mem_filter, renderQuery,
    matchesFilter_iff_specShown]

/-- Claim C2: the manifest array the generator writes is sorted by date
descending — for every adjacent pair `(a, b)` of the output and all
timestamps their date fields parse to, `a`'s timestamp is ≥ `b`'s. -/
theorem c2_manifest_sorted_descending (parse : Str → Option Int) (api : Api) :
    List.Chain' (dateGe parse) (generatorOutput parse api) := by
  unfold generatorOutput
  refine chain_insSort ?_ ?_ _
  · intro x y hxy
    unfold dateGe
    intro ta tb hx hy
    rw [genLe, hy, hx] at hxy
    simp only [cmpNum, decide_eq_true_eq] at hxy
    omega
  · intro x y hxy
    unfold dateGe
    intro ta tb hy hx
    rw [genLe, hy, hx] at hxy
    simp only [cmpNum, decide_eq_false_iff_not] at hxy
    omega

/-- Claim C3: a repository (not a fork, not archived) whose Pages lookup
fails contributes no record; a 404 failure is skipped silently, any
other failure logs exactly the pages warning; and the loop continues
over the remaining repositories either way. -/
theorem c3_pages_failure_excludes (api : Api) (r : RepoInfo) (st : Option Nat)
    (msg : Str) (hf : r.fork = false) (ha : r.archived = false)
    (hp : api.pages r.name = Fetch.err st msg) :
    processRepo api r =
      (none, if st = some 404 then [] else [pagesWarnMsg r.name msg]) ∧
    ∀ rest, generateLoop api (r :: rest) =
      ((generateLoop api rest).1,
       (if st = some 404 then [] else [pagesWarnMsg r.name msg]) ++
         (generateLoop api rest).2) := by
  have hpr : processRepo api r =
      (none, if st = some 404 then [] else [pagesWarnMsg r.name msg]) := by
    unfold processRepo
    rw [hf, ha, hp]
    by_cases h4 : st = some 404 <;> simp [h4]
  refine ⟨hpr, fun rest => ?_⟩
  simp only [generateLoop, hpr, Option.toList_none, List.nil_append]

/-- Witness for C3 at a concrete 404 response. -/
theorem c3_witness :
    repoGood.fork = false ∧ repoGood.archived = false ∧
    apiErr404.pages repoGood.name = Fetch.err (some 404) [] ∧
    processRepo apiErr404 repoGood = (none, []) ∧
    generateLoop apiErr404 [repoGood] = ([], []) :=
  ⟨rfl, rfl, rfl,
   by simpa using
     (c3_pages_failure_excludes apiErr404 repoGood (some 404) [] rfl rfl rfl).1,
   by simpa [generateLoop] using
     (c3_pages_failure_excludes apiErr404 repoGood (some 404) [] rfl rfl rfl).2 []⟩

/-- Claim C4: a forked or archived repository contributes no record and
no warning, whatever the Pages and topics endpoints would answer, and
the loop's output over the remaining repositories is unchanged. -/
theorem c4_fork_archived_excluded (api : Api) (r : RepoInfo)
    (h : r.fork = true ∨ r.archived = true) :
    processRepo api r = (none, []) ∧
    ∀ rest, generateLoop api (r :: rest) = generateLoop api rest := by
  have hor : (r.fork || r.archived) = true := by
    rcases h with h | h <;> simp [h]
  have hpr : processRepo api r = (none, []) := by
    unfold processRepo
    rw [hor]
    simp
  refine ⟨hpr, fun rest => ?_⟩
  simp only [generateLoop, hpr, Option.toList_none, List.nil_append]

/-- Witness for C4 at a concrete forked repository with a working Pages
endpoint. -/
theorem c4_witness :
    (repoFork.fork = true ∨ repoFork.archived = true) ∧
    processRepo apiOk repoFork = (none, []) ∧
    generateLoop apiOk [repoFork] = generateLoop apiOk [] :=
  ⟨Or.inl rfl,
   (c4_fork_archived_excluded apiOk repoFork (Or.inl rfl)).1,
   (c4_fork_archived_excluded apiOk repoFork (Or.inl rfl)).2 []⟩

/-- Claim C5: when the Pages lookup succeeds but the topics lookup
fails, the repository is not excluded — its record is still pushed, with
an empty topics list, and the topics warning is logged. -/
theorem c5_topics_failure_keeps_record (api : Api) (r : RepoInfo)
    (cfg : PagesConfig) (st : Option Nat) (msg : Str)
    (hf : r.fork = false) (ha : r.archived = false)
    (hp : api.pages r.name = Fetch.ok cfg)
    (ht : api.topics r.name = Fetch.err st msg) :
    processRepo api r =
      (some { name := r.name, repo := r.name, url := cfg.html_url,
              description := r.description.getD [], topics := [],
              date := r.updated_at, screenshot := [] },
       [topicsWarnMsg r.name msg]) := by
  unfold processRepo
  rw [hf, ha, hp, ht]
  simp

/-- Witness for C5 at a concrete topics failure. -/
theorem c5_witness :
    repoGood.fork = false ∧
    apiTopicsErr.pages repoGood.name = Fetch.ok cfgW ∧
    apiTopicsErr.topics repoGood.name = Fetch.err none ("boom".toList) ∧
    processRepo apiTopicsErr repoGood =
      (some { name := repoGood.name, repo := repoGood.name,
              url := cfgW.html_url, description := repoGood.description.getD [],
              topics := [], date := repoGood.updated_at, screenshot := [] },
       [topicsWarnMsg repoGood.name ("boom".toList)]) :=
  ⟨rfl, rfl, rfl,
   c5_topics_failure_keeps_record apiTopicsErr repoGood cfgW none
     ("boom".toList) rfl rfl rfl rfl⟩

/-- Claim C6: with either credential absent from the environment, `main`
exits with status 1 and one of the two descriptive error messages, for
every state of the network — i.e. before any network call matters. -/
theorem c6_missing_credentials_fatal (githubUser githubToken : Option Str)
    (h : githubUser = none ∨ githubToken = none) (parse : Str → Option Int)
    (api : Api) :
    mainRun parse githubUser githubToken api = MainOutcome.exit 1 userMissingMsg ∨
    mainRun parse githubUser githubToken api = MainOutcome.exit 1 tokenMissingMsg := by
  unfold mainRun
  rcases h with h | h
  · subst h
    left
    simp [strFalsy]
  · subst h
    by_cases hu : strFalsy githubUser = true
    · left
      simp [hu]
    · right
      rw [if_neg hu]
      simp [strFalsy]

/-- Witness for C6 with the account identifier absent. -/
theorem c6_witness :
    ((none : Option Str) = none ∨ (some ("tok".toList) : Option Str) = none) ∧
    (mainRun parseW none (some ("tok".toList)) apiOk =
        MainOutcome.exit 1 userMissingMsg ∨
      mainRun parseW none (some ("tok".toList)) apiOk =
        MainOutcome.exit 1 tokenMissingMsg) :=
  ⟨Or.inl rfl,
   c6_missing_credentials_fatal none (some ("tok".toList)) (Or.inl rfl) parseW apiOk⟩

/-- Claim C7 fails as stated: with the input list `[projBadG, projGoodG]`
(first date unparseable, second parseable), the generator's sort and the
renderer's sort in both directions all leave the unparseable record
first — not last. The comparator returns `NaN`, which SortCompare treats
as a tie, so the stable sort keeps input order. -/
theorem c7_counterexample :
    parseW projBadG.date = none ∧
    parseW projGoodG.date = some 10 ∧
    generatorOutput parseW apiOk = [projBadG, projGoodG] ∧
    visibleList parseW [projBadG, projGoodG] [] [] ("asc".toList) =
      [projBadG, projGoodG] ∧
    visibleList parseW [projBadG, projGoodG] [] [] ("desc".toList) =
      [projBadG, projGoodG] ∧
    projBadG ≠ projGoodG := by
  decide

/-- Claim C7 (amended): a record with an unparseable date ties with
every record under all three comparators, so the stable sort keeps it at
its input position instead of moving it last: a two-element list with
the unparseable record first is left unchanged by the generator's sort
and by the renderer's sort under either sort direction. -/
theorem c7_amended_unparseable_ties (parse : Str → Option Int)
    (p q : Project) (t : Int) (hp : parse p.date = none)
    (hq : parse q.date = some t) (sortVal : Str) :
    insSort (genLe parse) [p, q] = [p, q] ∧
    visibleList parse [p, q] [] [] sortVal = [p, q] := by
  have hgen : genLe parse p q = true := by
    simp [genLe, hp, hq, cmpNum]
  have hr : rndLe parse sortVal p q = true := by
    unfold rndLe
    by_cases hs : sortVal = "asc".toList <;> simp [hs, hp, hq, cmpNum]
  constructor
  · simp [insSort, ordInsert, hgen]
  · simp [visibleList, renderQuery, trimS, lowerS, matchesFilter, isWS,
      insSort, ordInsert, hr]

/-- Witness for the amended C7 at concrete records. -/
theorem c7_witness :
    parseW projBadG.date = none ∧ parseW projGoodG.date = some 10 ∧
    (insSort (genLe parseW) [projBadG, projGoodG] = [projBadG, projGoodG] ∧
     visibleList parseW [projBadG, projGoodG] [] [] ("asc".toList) =
       [projBadG, projGoodG]) :=
  ⟨by decide, by decide,
   c7_amended_unparseable_ties parseW projBadG projGoodG 10 (by decide)
     (by decide) ("asc".toList)⟩

/-- Claim C8 fails as stated: a record whose date is present but
unparseable gets the date label `更新于 ` (the static text with an empty
formatted part), which is not the empty string. -/
theorem c8_counterexample :
    projBadG.date ≠ [] ∧
    parseW projBadG.date = none ∧
    dateLabel parseW fmtW projBadG = "更新于 ".toList ∧
    dateLabel parseW fmtW projBadG ≠ [] := by
  decide

/-- Claim C8 (amended): for a record whose date is present but
unparseable, `formatDate` yields the empty string and the card's date
label is exactly the static text `更新于 ` — no error is raised, but the
label is the bare static text rather than the empty string. -/
theorem c8_amended_label_static_text (parse : Str → Option Int)
    (fmtYMD : Int → Str) (p : Project) (hd : p.date ≠ [])
    (hu : parse p.date = none) :
    formatDate parse fmtYMD p.date = [] ∧
    dateLabel parse fmtYMD p = "更新于 ".toList := by
  have hf : formatDate parse fmtYMD p.date = [] := by
    simp [formatDate, hu]
  have hie : p.date.isEmpty = false := by
    cases hc : p.date with
    | nil => exact absurd hc hd
    | cons a b => rfl
  refine ⟨hf, ?_⟩
  simp [dateLabel, hie, hf]

/-- Witness for the amended C8 at a concrete record. -/
theorem c8_witness :
    projBadG.date ≠ [] ∧ parseW projBadG.date = none ∧
    (formatDate parseW fmtW projBadG.date = [] ∧
     dateLabel parseW fmtW projBadG = "更新于 ".toList) :=
  ⟨by decide, by decide,
   c8_amended_label_static_text parseW fmtW projBadG (by decide) (by decide)⟩

/-- Claim C9: every record in the generator's output has its name equal
to its repo field and an empty screenshot. -/
theorem c9_name_repo_screenshot (parse : Str → Option Int) (api : Api)
    (p : Project) (h : p ∈ generatorOutput parse api) :
    p.name = p.repo ∧ p.screenshot = [] := by
  rw [generatorOutput, mem_insSort] at h
  exact generateLoop_record_fields api api.listRepos p h

/-- Witness for C9 at a concrete generated record. -/
theorem c9_witness :
    projGoodG ∈ generatorOutput parseW apiOk ∧
    (projGoodG.name = projGoodG.repo ∧ projGoodG.screenshot = []) :=
  ⟨by decide,
   c9_name_repo_screenshot parseW apiOk projGoodG (by decide)⟩

/-- Claim C10: surrounding the search text with whitespace never changes
the visible list; in particular (taking the inner text empty) a
whitespace-only search text behaves exactly like an empty one. -/
theorem c10_trim_invariance (parse : Str → Option Int)
    (projects : List Project) (tag sortVal w s w' : Str)
    (hw : ∀ c ∈ w, isWS c = true) (hw' : ∀ c ∈ w', isWS c = true) :
    visibleList parse projects (w ++ s ++ w') tag sortVal =
      visibleList parse projects s tag sortVal := by
  unfold visibleList renderQuery
  rw [trimS_pad w s w' hw hw']

/-- Witness for C10: padding the query `x` with spaces on both sides. -/
theorem c10_witness :
    (∀ c ∈ ([' '] : Str), isWS c = true) ∧
    visibleList parseW [projX] ([' '] ++ ['x'] ++ [' ']) [] ("desc".toList) =
      visibleList parseW [projX] ['x'] [] ("desc".toList) :=
  ⟨by decide,
   c10_trim_invariance parseW [projX] [] ("desc".toList) [' '] ['x'] [' ']
     (by decide) (by decide)⟩

end PagesIndex
